import Mathlib

/-!
# Verification of the AVA scagnostics geometric core

Shallow embedding of the scagnostics pipeline of this repository
(`scagScorer`, `findScag/grapher.ts`, `findScag/util.ts`) and proofs about
it.

Modelling conventions:
* JavaScript numbers are modelled exactly, as fractions (`JsNum` below: an
  integer numerator over a positive integer denominator, not necessarily
  reduced).  Every concrete input used in a theorem below is chosen so that
  each arithmetic operation the source performs on it is exact in IEEE
  doubles as well (small integers, halves, and fractions such as `3/5`
  whose rounded double product `4 * 0.6 = 2.4000…04` falls in the same
  branch as the exact value).  Fraction arithmetic avoids normalisation so
  that the kernel can evaluate every run (`ℚ` multiplication is not
  kernel-reducible); the `toRat` lemmas relate the operations to `ℚ`.
* JavaScript arrays are `List`s; reading `arr[i]` out of bounds yields
  `undefined`, which compares `false` with every number, and is modelled
  with `Option` where the source can actually run out of bounds.
* In-place mutation is modelled by explicit state passing: a mutating
  routine takes the list and returns the updated list.  Where aliasing
  itself is the property at stake (the claim that `quantile` does not
  mutate its input) a small explicit heap of arrays is used.
* `while` loops are modelled with an explicit fuel argument returning
  `Option`; `none` means the fuel ran out before the loop exited.
* The source files are ES modules, hence strict mode: calling a
  constructor function without `new` makes `this` undefined, and the first
  `this.field = …` assignment throws a `TypeError`.
-/

/-! ## Exact JavaScript numbers -/

/-- An exact rational value of a JavaScript number: `num / den` with
`0 < den`, not necessarily in lowest terms (so that all operations are
computable by the kernel). -/
structure JsNum : Type where
  num : ℤ
  den : ℤ
  pos : 0 < den

instance : DecidableEq JsNum := fun a b =>
  if h : a.num = b.num ∧ a.den = b.den then
    isTrue (by cases a; cases b; cases h.1; cases h.2; rfl)
  else
    isFalse (fun e => h (by cases e; exact ⟨rfl, rfl⟩))

/-- Build `n / d`; a non-positive denominator (never used below) falls back
to the integer `n`. -/
def mkJs (n d : ℤ) : JsNum :=
  if h : 0 < d then ⟨n, d, h⟩ else ⟨n, 1, one_pos⟩

instance (n : ℕ) : OfNat JsNum n := ⟨⟨(n : ℤ), 1, one_pos⟩⟩

instance : NatCast JsNum := ⟨fun n => ⟨(n : ℤ), 1, one_pos⟩⟩

instance : IntCast JsNum := ⟨fun n => ⟨n, 1, one_pos⟩⟩

def JsNum.add (a b : JsNum) : JsNum :=
  ⟨a.num * b.den + b.num * a.den, a.den * b.den, mul_pos a.pos b.pos⟩

def JsNum.neg (a : JsNum) : JsNum := ⟨-a.num, a.den, a.pos⟩

def JsNum.sub (a b : JsNum) : JsNum := a.add b.neg

def JsNum.mul (a b : JsNum) : JsNum :=
  ⟨a.num * b.num, a.den * b.den, mul_pos a.pos b.pos⟩

/-- Reciprocal.  The embedded runs never divide by zero (JavaScript would
produce `Infinity`); the zero case is mapped to zero. -/
def JsNum.inv (a : JsNum) : JsNum :=
  if h : 0 < a.num then ⟨a.den, a.num, h⟩
  else if h2 : a.num < 0 then ⟨-a.den, -a.num, by omega⟩
  else ⟨0, 1, one_pos⟩

def JsNum.div (a b : JsNum) : JsNum := a.mul b.inv

def JsNum.abs (a : JsNum) : JsNum := ⟨|a.num|, a.den, a.pos⟩

instance : Add JsNum := ⟨JsNum.add⟩

instance : Neg JsNum := ⟨JsNum.neg⟩

instance : Sub JsNum := ⟨JsNum.sub⟩

instance : Mul JsNum := ⟨JsNum.mul⟩

instance : Div JsNum := ⟨JsNum.div⟩

/-- The value of a JavaScript number, as a rational. -/
def JsNum.toRat (a : JsNum) : ℚ := (a.num : ℚ) / (a.den : ℚ)

/-- `a < b` on values. -/
def JsNum.Lt (a b : JsNum) : Prop := a.num * b.den < b.num * a.den

/-- `a <= b` on values. -/
def JsNum.Le (a b : JsNum) : Prop := a.num * b.den ≤ b.num * a.den

/-- `a === b`: JavaScript number equality is value equality. -/
def JsNum.Eqv (a b : JsNum) : Prop := a.num * b.den = b.num * a.den

instance (a b : JsNum) : Decidable (a.Lt b) := by
  unfold JsNum.Lt
  infer_instance

instance (a b : JsNum) : Decidable (a.Le b) := by
  unfold JsNum.Le
  infer_instance

instance (a b : JsNum) : Decidable (a.Eqv b) := by
  unfold JsNum.Eqv
  infer_instance

/-- `Math.floor`. -/
def JsNum.floor (a : JsNum) : ℤ := a.num.fdiv a.den

/-- `Math.ceil`. -/
def JsNum.ceil (a : JsNum) : ℤ := -((-a.num).fdiv a.den)

/-- `x % 1 === 0`: the value is an integer. -/
def JsNum.IsInt (a : JsNum) : Prop := a.num % a.den = 0

instance (a : JsNum) : Decidable a.IsInt := by
  unfold JsNum.IsInt
  infer_instance

theorem JsNum.den_ratCast_pos (a : JsNum) : (0 : ℚ) < (a.den : ℚ) := by
  exact_mod_cast a.pos

theorem JsNum.lt_iff_toRat (a b : JsNum) : a.Lt b ↔ a.toRat < b.toRat := by
  unfold JsNum.Lt JsNum.toRat
  rw [div_lt_div_iff₀ a.den_ratCast_pos b.den_ratCast_pos]
  exact_mod_cast Iff.rfl

theorem JsNum.le_iff_toRat (a b : JsNum) : a.Le b ↔ a.toRat ≤ b.toRat := by
  unfold JsNum.Le JsNum.toRat
  rw [div_le_div_iff₀ a.den_ratCast_pos b.den_ratCast_pos]
  exact_mod_cast Iff.rfl

theorem JsNum.eqv_iff_toRat (a b : JsNum) : a.Eqv b ↔ a.toRat = b.toRat := by
  unfold JsNum.Eqv JsNum.toRat
  rw [div_eq_div_iff (a.den_ratCast_pos).ne.symm (b.den_ratCast_pos).ne.symm]
  exact_mod_cast Iff.rfl

theorem JsNum.toRat_add (a b : JsNum) : (a + b).toRat = a.toRat + b.toRat := by
  show (a.add b).toRat = _
  unfold JsNum.add JsNum.toRat
  have ha := a.den_ratCast_pos.ne.symm
  have hb := b.den_ratCast_pos.ne.symm
  field_simp
  try push_cast
  try ring

theorem JsNum.toRat_mul (a b : JsNum) : (a * b).toRat = a.toRat * b.toRat := by
  show (a.mul b).toRat = _
  unfold JsNum.mul JsNum.toRat
  push_cast
  rw [div_mul_div_comm]

theorem JsNum.toRat_neg (a : JsNum) : (-a).toRat = -a.toRat := by
  show a.neg.toRat = _
  unfold JsNum.neg JsNum.toRat
  push_cast
  ring

theorem JsNum.toRat_sub (a b : JsNum) : (a - b).toRat = a.toRat - b.toRat := by
  show (a.sub b).toRat = _
  unfold JsNum.sub
  rw [show a.add b.neg = a + (-b) from rfl, JsNum.toRat_add, JsNum.toRat_neg]
  ring

theorem JsNum.isInt_iff_den_dvd (a : JsNum) : a.IsInt ↔ a.den ∣ a.num := by
  unfold JsNum.IsInt
  exact Int.dvd_iff_emod_eq_zero.symm

/-- JavaScript runtime failures the embedded code can raise. -/
inductive JsErr : Type
  | typeError
  | rangeError
deriving DecidableEq, Repr

/-! ## `util.ts` : `quantileSorted`

Direct translation of `quantileSorted` from
`src/packages/chart-advisor/src/perception/findScag/util.ts`
(lines 160-184).  The two `throw new Error(...)` statements are modelled by
`Except.error`; the `idx % 1 !== 0` test is integrality of `idx`
(`JsNum.IsInt`); array reads in the remaining branches are in bounds for
every `x ≠ []`, `0 ≤ p ≤ 1`, and use `List.getD _ 0`. -/
def quantileSortedRun (x : List JsNum) (p : JsNum) : Except JsErr JsNum :=
  let idx : JsNum := (x.length : JsNum) * p
  if x.length = 0 then
    .error .rangeError
  else if p.Lt 0 ∨ JsNum.Lt 1 p then
    .error .rangeError
  else if p.Eqv 1 then
    .ok (x.getD (x.length - 1) 0)
  else if p.Eqv 0 then
    .ok (x.getD 0 0)
  else if ¬ idx.IsInt then
    .ok (x.getD (idx.ceil - 1).toNat 0)
  else if x.length % 2 = 0 then
    .ok ((x.getD (idx.floor - 1).toNat 0 + x.getD idx.floor.toNat 0) / 2)
  else
    .ok (x.getD idx.floor.toNat 0)

/-- The return value claimed by the spec sentence for `quantileSorted`
(C4): first element at `p = 0`, last at `p = 1`, the average
`(x[idx−1]+x[idx])/2` when `idx = n·p` is an integer and `n` is even, and
`x[⌈idx⌉−1]` in every other case — including an integer `idx` with odd
`n`. -/
def quantileSortedClaimC4 (x : List JsNum) (p : JsNum) : JsNum :=
  let idx : JsNum := (x.length : JsNum) * p
  if p.Eqv 0 then x.getD 0 0
  else if p.Eqv 1 then x.getD (x.length - 1) 0
  else if idx.IsInt ∧ x.length % 2 = 0 then
    (x.getD (idx.floor - 1).toNat 0 + x.getD idx.floor.toNat 0) / 2
  else
    x.getD (idx.ceil - 1).toNat 0

/-- The amended description (C4): as the claim, except that when `idx` is
an integer and `n` is odd the code returns `x[idx]`, not
`x[⌈idx⌉−1] = x[idx−1]`. -/
def quantileSortedAmendedC4 (x : List JsNum) (p : JsNum) : JsNum :=
  let idx : JsNum := (x.length : JsNum) * p
  if p.Eqv 0 then x.getD 0 0
  else if p.Eqv 1 then x.getD (x.length - 1) 0
  else if ¬ idx.IsInt then x.getD (idx.ceil - 1).toNat 0
  else if x.length % 2 = 0 then
    (x.getD (idx.floor - 1).toNat 0 + x.getD idx.floor.toNat 0) / 2
  else
    x.getD idx.floor.toNat 0

/-- **C4, counterexample.**  On the sorted five-element array
`[10,20,30,40,50]` at `p = 1/5` the index `idx = 5·(1/5) = 1` is an
integer and the length is odd; the code returns `x[1] = 20` while the
claim's formula `x[⌈idx⌉−1] = x[0]` gives `10`.  (In IEEE doubles
`5 * 0.2` is exactly `1`, so the source takes the same branch.) -/
theorem quantileSorted_claimC4_counterexample :
    quantileSortedRun [10, 20, 30, 40, 50] (mkJs 1 5) = .ok 20 ∧
      quantileSortedClaimC4 [10, 20, 30, 40, 50] (mkJs 1 5) = 10 ∧
      ¬ JsNum.Eqv 20 10 := by
  refine ⟨by rfl, by rfl, by decide⟩

/-- **C4, amended.**  For every non-empty `x` and `p ∈ [0,1]`,
`quantileSorted` returns: the first element if `p = 0`; the last if
`p = 1`; `x[⌈idx⌉−1]` when `idx = n·p` is not an integer; the average
`(x[idx−1]+x[idx])/2` when `idx` is an integer and `n` is even; and
`x[idx]` when `idx` is an integer and `n` is odd. -/
theorem quantileSorted_amendedC4 (x : List JsNum) (p : JsNum)
    (hx : x ≠ []) (h0 : JsNum.Le 0 p) (h1 : p.Le 1) :
    quantileSortedRun x p = .ok (quantileSortedAmendedC4 x p) := by
  have hlen : ¬ x.length = 0 := fun h => hx (List.length_eq_zero.mp h)
  have hno : ¬ (p.Lt 0 ∨ JsNum.Lt 1 p) := by
    rintro (h | h)
    · rw [JsNum.lt_iff_toRat] at h
      rw [JsNum.le_iff_toRat] at h0
      exact absurd (lt_of_le_of_lt h0 h) (lt_irrefl _)
    · rw [JsNum.lt_iff_toRat] at h
      rw [JsNum.le_iff_toRat] at h1
      exact absurd (lt_of_le_of_lt h1 h) (lt_irrefl _)
  unfold quantileSortedRun quantileSortedAmendedC4
  rw [if_neg hlen, if_neg hno]
  by_cases hp1 : p.Eqv 1
  · have hp0 : ¬ p.Eqv 0 := by
      intro h0'
      have e1 : p.num * 1 = 1 * p.den := hp1
      have e0 : p.num * 1 = 0 * p.den := h0'
      have := p.pos
      omega
    rw [if_pos hp1, if_neg hp0, if_pos hp1]
  · by_cases hp0 : p.Eqv 0
    · rw [if_neg hp1, if_pos hp0, if_pos hp0]
    · rw [if_neg hp1, if_neg hp0, if_neg hp0, if_neg hp1]
      split_ifs <;> rfl

/-- **C4, witness** for the amended theorem, at `x = [3,6,9]`, `p = 1/3`. -/
theorem quantileSorted_amendedC4_witness :
    ([3, 6, 9] : List JsNum) ≠ [] ∧ JsNum.Le 0 (mkJs 1 3) ∧ JsNum.Le (mkJs 1 3) 1 ∧
      quantileSortedRun [3, 6, 9] (mkJs 1 3) =
        .ok (quantileSortedAmendedC4 [3, 6, 9] (mkJs 1 3)) :=
  ⟨by simp, by decide, by decide,
    quantileSorted_amendedC4 [3, 6, 9] (mkJs 1 3) (by simp) (by decide) (by decide)⟩

/-! ## `util.ts` : `quickselect` (Floyd–Rivest variant)

Translation of `quickselect`/`swap` from `util.ts` (lines 97-145).  The
source mutates `arr` in place; the model passes the list explicitly and
returns the updated list.  Indices are `ℤ` because the inner scan `j--`
can reach `-1`, where `arr[-1]` is `undefined` and every comparison with
it is `false`.  The sub-range heuristic of the `right - left > 600` branch
is computed in the source with double-precision
`Math.log`/`Math.exp`/`Math.sqrt`; the model takes it as a parameter
`heur` and keeps the source's clamps `Math.max left …`/`Math.min right …`.
No theorem below depends on `heur`: every run stays in ranges of width at
most 600, where the branch is not taken. -/

/-- `arr[i]` for an `ℤ` index: `undefined` (`none`) when out of bounds. -/
def jsGet (arr : List JsNum) (i : ℤ) : Option JsNum :=
  if 0 ≤ i then arr.get? i.toNat else none

/-- `arr[i] < t`, `false` when `arr[i]` is `undefined`. -/
def jsLtU (a : Option JsNum) (t : JsNum) : Bool :=
  match a with
  | some v => v.Lt t
  | none => false

/-- `arr[i] > t`, `false` when `arr[i]` is `undefined`. -/
def jsGtU (a : Option JsNum) (t : JsNum) : Bool :=
  match a with
  | some v => t.Lt v
  | none => false

/-- `arr[i] === t`, `false` when `arr[i]` is `undefined`. -/
def jsEqU (a : Option JsNum) (t : JsNum) : Bool :=
  match a with
  | some v => v.Eqv t
  | none => false

/-- The `swap` helper of `util.ts`.  Every swap the embedded runs perform
is in bounds; an out-of-bounds index leaves the list unchanged. -/
def jsSwap (arr : List JsNum) (i j : ℤ) : List JsNum :=
  if 0 ≤ i ∧ i < (arr.length : ℤ) ∧ 0 ≤ j ∧ j < (arr.length : ℤ) then
    let a := arr.getD i.toNat 0
    let b := arr.getD j.toNat 0
    (arr.set i.toNat b).set j.toNat a
  else arr

/-- `while (arr[i] < t) i++` -/
def scanUp (arr : List JsNum) (t : JsNum) : ℕ → ℤ → Option ℤ
  | 0, _ => none
  | fuel + 1, i => if jsLtU (jsGet arr i) t then scanUp arr t fuel (i + 1) else some i

/-- `while (arr[j] > t) j--` -/
def scanDown (arr : List JsNum) (t : JsNum) : ℕ → ℤ → Option ℤ
  | 0, _ => none
  | fuel + 1, j => if jsGtU (jsGet arr j) t then scanDown arr t fuel (j - 1) else some j

/-- The `while (i < j)` partition loop of `quickselect`. -/
def hoareLoop (t : JsNum) : ℕ → List JsNum → ℤ → ℤ → Option (List JsNum × ℤ × ℤ)
  | 0, _, _, _ => none
  | fuel + 1, arr, i, j =>
    if i < j then do
      let arr1 := jsSwap arr i j
      let i1 ← scanUp arr1 t (arr1.length + 2) (i + 1)
      let j1 ← scanDown arr1 t (j.toNat + 2) (j - 1)
      hoareLoop t fuel arr1 i1 j1
    else some (arr, i, j)

/-- The `while (right > left)` body of `quickselect`, fuelled. -/
def qsOuter (heur : ℤ → ℤ → ℤ → ℤ × ℤ) :
    ℕ → List JsNum → ℤ → ℤ → ℤ → Option (List JsNum)
  | 0, _, _, _, _ => none
  | fuel + 1, arr, k, left, right =>
    if left < right then do
      let arr ←
        if 600 < right - left then
          let nl := (heur k left right).1
          let nr := (heur k left right).2
          qsOuter heur fuel arr k (max left nl) (min right nr)
        else some arr
      let t := (jsGet arr k).getD 0
      let arr := jsSwap arr left k
      let arr := if jsGtU (jsGet arr right) t then jsSwap arr left right else arr
      let (arr, _, j) ← hoareLoop t (arr.length + 2) arr left right
      let (arr, j) :=
        if jsEqU (jsGet arr left) t then (jsSwap arr left j, j)
        else (jsSwap arr (j + 1) right, j + 1)
      let left := if j ≤ k then j + 1 else left
      let right := if k ≤ j then j - 1 else right
      qsOuter heur fuel arr k left right
    else some arr

/-- `quickselect(arr, k, left, right)` from `util.ts` (lines 97-139).  The
first two statements are the JavaScript falsy defaults `left = left || 0`
and `right = right || arr.length - 1`: an explicitly passed `right = 0` is
*replaced by* `arr.length - 1`. -/
def quickselectRun (heur : ℤ → ℤ → ℤ → ℤ × ℤ) (fuel : ℕ)
    (arr : List JsNum) (k left right : ℤ) : Option (List JsNum) :=
  let left := if left = 0 then 0 else left
  let right := if right = 0 then (arr.length : ℤ) - 1 else right
  qsOuter heur fuel arr k left right

/-- **C6.**  Evaluation of `quickselect` at the failing input
`arr = [1, 0]`, `k = 0`, `left = 0`, `right = 0`.  The claim requires the
call to leave every element outside `[left, right] = [0, 0]` unchanged and
to put the 1st smallest of the one-element range `[arr[0]] = [1]` at
position 0, i.e. to leave `[1, 0]` unchanged.  Because of the falsy
default `right = right || arr.length - 1`, the code instead selects over
the whole array and returns `[0, 1]`: position 1, outside the requested
range, is modified, and `arr[0]` becomes `0 ≠ 1`.  The result holds for
every value of the unreached `> 600` heuristic. -/
theorem quickselect_right0_C6 (heur : ℤ → ℤ → ℤ → ℤ × ℤ) :
    quickselectRun heur 20 [1, 0] 0 0 0 = some [0, 1] ∧ ¬ JsNum.Eqv 0 1 := by
  exact ⟨by rfl, by decide⟩

/-! ## `util.ts` : quantiles over unsorted data

Translations of `quantileIndex`, `quantileSelect`, `multiQuantileSelect`,
`quantile` and `quantileArray` (lines 186-291 of `util.ts`). -/

/-- `quantileIndex(len, p)`.  The result is a number: an index, or
`idx - 0.5` (marking "average the two middle elements") when `idx = len·p`
is an integer and `len` is even. -/
def quantileIndexRun (len : ℕ) (p : JsNum) : JsNum :=
  let idx : JsNum := (len : JsNum) * p
  if p.Eqv 1 then (((len : ℤ) - 1 : ℤ) : JsNum)
  else if p.Eqv 0 then 0
  else if ¬ idx.IsInt then ((idx.ceil - 1 : ℤ) : JsNum)
  else if len % 2 = 0 then idx - mkJs 1 2
  else idx

/-- `quantileSelect(arr, k, left, right)`: integral `k` is one
`quickselect`; fractional `k` (the `idx - 0.5` marker) selects `⌊k⌋` and
then `⌊k⌋ + 1`. -/
def quantileSelectRun (heur : ℤ → ℤ → ℤ → ℤ × ℤ) (fuel : ℕ)
    (arr : List JsNum) (k : JsNum) (left right : ℤ) : Option (List JsNum) :=
  if k.IsInt then quickselectRun heur fuel arr k.floor left right
  else do
    let kf := k.floor
    let arr ← quickselectRun heur fuel arr kf left right
    quickselectRun heur fuel arr (kf + 1) (kf + 1) right

/-- The `while (stack.length)` loop of `multiQuantileSelect`.  The stack
holds positions into `indices` (always integers, pushed in groups of four
after the initial pair, so the `[_] => none` case is unreachable); it is
modelled top-first: `stack.pop()` takes the head.  `Math.ceil(s1)` and
`Math.floor(s2)` on these integer values are the identity, and
`Math.floor((l + r) / 2)` on non-negative positions is `(l + r).fdiv 2`. -/
def mqsLoop (heur : ℤ → ℤ → ℤ → ℤ × ℤ) :
    ℕ → List JsNum → List JsNum → List ℤ → Option (List JsNum)
  | 0, _, _, _ => none
  | fuel + 1, arr, indices, stack =>
    match stack with
    | [] => some arr
    | [_] => none
    | s1 :: s2 :: rest =>
      let r := s1
      let l := s2
      if r - l ≤ 1 then mqsLoop heur fuel arr indices rest
      else do
        let m := (l + r).fdiv 2
        let arr ← quantileSelectRun heur (fuel + 1) arr (indices.getD m.toNat 0)
            (indices.getD l.toNat 0).floor (indices.getD r.toNat 0).ceil
        mqsLoop heur fuel arr indices (r :: m :: m :: l :: rest)

instance : DecidableRel JsNum.Le := fun _ _ => inferInstance

/-- `multiQuantileSelect(arr, p)`: build the target-index list (with the
sentinels `0` and `arr.length - 1`), sort it ascending (`indices.sort(compare)`
with the numeric comparator; `List.insertionSort` is stable, as JavaScript's
sort is), and run the stack loop starting from `[0, indices.length - 1]`. -/
def multiQuantileSelectRun (heur : ℤ → ℤ → ℤ → ℤ × ℤ) (fuel : ℕ)
    (arr : List JsNum) (p : List JsNum) : Option (List JsNum) :=
  let indices : List JsNum :=
    (0 : JsNum) :: (p.map (fun q => quantileIndexRun arr.length q) ++
      [(((arr.length : ℤ) - 1 : ℤ) : JsNum)])
  let indices := indices.insertionSort JsNum.Le
  mqsLoop heur fuel arr indices [(indices.length : ℤ) - 1, 0]

/-- `quantile(x, p)` for a scalar `p`: copy `x`, partially sort the copy,
read the quantile off the copy. -/
def quantileRun (heur : ℤ → ℤ → ℤ → ℤ × ℤ) (fuel : ℕ)
    (x : List JsNum) (p : JsNum) : Option (Except JsErr JsNum) := do
  let copy := x
  let idx := quantileIndexRun copy.length p
  let copy ← quantileSelectRun heur fuel copy idx 0 ((copy.length : ℤ) - 1)
  some (quantileSortedRun copy p)

/-- `quantileArray(x, p)` for an array `p` (lines 215-234): copy `x`, run
`multiQuantileSelect`, then read every requested quantile off the copy. -/
def quantileArrayRun (heur : ℤ → ℤ → ℤ → ℤ × ℤ) (fuel : ℕ)
    (x : List JsNum) (p : List JsNum) : Option (Except JsErr (List JsNum)) := do
  let copy := x
  let copy ← multiQuantileSelectRun heur fuel copy p
  some (p.mapM (fun q => quantileSortedRun copy q))

/-- **C8.**  Evaluation at the failing input `x = [0, 2, 2, 1]`,
`p = [0, 3/5]`.  The multi-quantile path returns `[1, 2]`, while the
single-quantile path gives `quantile(x, 0) = 0` (the minimum) and
`quantile(x, 3/5) = 2`: position 0 of the partially sorted copy is
disturbed by the second `quickselect(copy, 2, 0, 3)` pass after the first
pass had placed the minimum there, so `quantileArray(x,p)[0] = 1 ≠ 0 =
quantile(x, p[0])`.  (In doubles `4 * 0.6 = 2.4000000000000004` falls in
the same non-integer branch as the exact `12/5`.)  The `> 600` heuristic
is unreached, so the result holds for every `heur`. -/
theorem quantileArray_mismatch_C8 (heur : ℤ → ℤ → ℤ → ℤ × ℤ) :
    quantileArrayRun heur 30 [0, 2, 2, 1] [0, mkJs 3 5] = some (.ok [1, 2]) ∧
      quantileRun heur 30 [0, 2, 2, 1] 0 = some (.ok 0) ∧
      quantileRun heur 30 [0, 2, 2, 1] (mkJs 3 5) = some (.ok 2) ∧
      ¬ JsNum.Eqv 1 0 := by
  exact ⟨by rfl, by rfl, by rfl, by decide⟩

/-! ## Mutation discipline of `quantile` / `quantileArray` (C10)

`quantile` and `quantileArray` begin with `const copy = x.slice();` and
every mutation (the quickselects) is applied to `copy`.  To state that the
caller's array object is untouched, arrays are placed on an explicit heap:
a reference is an index into a list of arrays, `x.slice()` allocates a
fresh array at the end of the heap, and the in-place partial sort is a
write-back to the fresh reference. -/

/-- A heap of JavaScript array objects. -/
abbrev JsHeap : Type := List (List JsNum)

/-- `quantile(x, p)` acting on the heap: `x` is the caller's reference. -/
def quantileOnHeap (heur : ℤ → ℤ → ℤ → ℤ × ℤ) (fuel : ℕ)
    (σ : JsHeap) (x : ℕ) (p : JsNum) : Option (Except JsErr JsNum × JsHeap) :=
  let xv := σ.getD x []
  let copy := xv
  let σ1 : JsHeap := σ ++ [copy]
  let rc := σ.length
  let idx := quantileIndexRun copy.length p
  match quantileSelectRun heur fuel copy idx 0 ((copy.length : ℤ) - 1) with
  | none => none
  | some copy2 =>
    let σ2 := σ1.set rc copy2
    some (quantileSortedRun copy2 p, σ2)

/-- `quantileArray(x, p)` acting on the heap. -/
def quantileArrayOnHeap (heur : ℤ → ℤ → ℤ → ℤ × ℤ) (fuel : ℕ)
    (σ : JsHeap) (x : ℕ) (p : List JsNum) :
    Option (Except JsErr (List JsNum) × JsHeap) :=
  let xv := σ.getD x []
  let copy := xv
  let σ1 : JsHeap := σ ++ [copy]
  let rc := σ.length
  match multiQuantileSelectRun heur fuel copy p with
  | none => none
  | some copy2 =>
    let σ2 := σ1.set rc copy2
    some (p.mapM (fun q => quantileSortedRun copy2 q), σ2)

theorem heap_set_fresh_preserves (σ : JsHeap) (c c2 : List JsNum) (r : ℕ)
    (h : r < σ.length) :
    ((σ ++ [c]).set σ.length c2).getD r [] = σ.getD r [] := by
  have hne : σ.length ≠ r := (Nat.ne_of_gt h)
  rw [List.getD_eq_getElem?_getD, List.getElem?_set_ne hne, List.getElem?_append,
    if_pos h, ← List.getD_eq_getElem?_getD]

/-- **C10.**  For every heap, valid array reference, quantile fraction(s)
and fuel, a terminating run of `quantile` or `quantileArray` leaves the
caller's array unchanged on the heap: only the freshly allocated
`x.slice()` copy is mutated by the underlying quickselects. -/
theorem quantile_preserves_input_C10 (heur : ℤ → ℤ → ℤ → ℤ × ℤ) (fuel : ℕ)
    (σ : JsHeap) (x : ℕ) (p : JsNum) (ps : List JsNum)
    (hx : x < σ.length) :
    (∀ res σ2, quantileOnHeap heur fuel σ x p = some (res, σ2) →
      σ2.getD x [] = σ.getD x []) ∧
    (∀ res σ2, quantileArrayOnHeap heur fuel σ x ps = some (res, σ2) →
      σ2.getD x [] = σ.getD x []) := by
  constructor
  · intro res σ2 hrun
    unfold quantileOnHeap at hrun
    dsimp only at hrun
    split at hrun
    · cases hrun
    · simp only [Option.some.injEq, Prod.mk.injEq] at hrun
      rw [← hrun.2]
      exact heap_set_fresh_preserves σ _ _ x hx
  · intro res σ2 hrun
    unfold quantileArrayOnHeap at hrun
    dsimp only at hrun
    split at hrun
    · cases hrun
    · simp only [Option.some.injEq, Prod.mk.injEq] at hrun
      rw [← hrun.2]
      exact heap_set_fresh_preserves σ _ _ x hx

/-- **C10, witness**: heap with the single array `[3, 1, 2]`, `p = 1/2`
and `p = [1/2]`; the runs terminate and the caller's array still reads
`[3, 1, 2]` afterwards. -/
theorem quantile_preserves_input_C10_witness :
    0 < ([[(3 : JsNum), 1, 2]] : JsHeap).length ∧
      quantileOnHeap (fun _ _ _ => (0, 0)) 20 [[3, 1, 2]] 0 (mkJs 1 2) =
        some (.ok 2, [[3, 1, 2], [1, 2, 3]]) ∧
      quantileArrayOnHeap (fun _ _ _ => (0, 0)) 20 [[3, 1, 2]] 0 [mkJs 1 2] =
        some (.ok [2], [[3, 1, 2], [1, 2, 3]]) ∧
      ([[(3 : JsNum), 1, 2], [1, 2, 3]] : JsHeap).getD 0 [] =
        ([[(3 : JsNum), 1, 2]] : JsHeap).getD 0 [] :=
  ⟨by decide, by rfl, by rfl,
    (quantile_preserves_input_C10 (fun _ _ _ => (0, 0)) 20 [[3, 1, 2]] 0
      (mkJs 1 2) [mkJs 1 2] (by decide)).1 (.ok 2) [[3, 1, 2], [1, 2, 3]] (by rfl)⟩

/-! ## `grapher.ts` : graph construction and `mst`

Translations from `findScag/grapher.ts`: `equalPoints`, `equalLinks`,
`idExists`, `makeNode`/`makeLink` (a node is identified by its point id),
`createGraph`, and `mst` with its `DisjointSet`.

`distance(a, b)` computes
`Math.round(Math.sqrt(dx·dx + dy·dy) · 1e10) / 1e10` with a double square
root, which has no exact rational form in general; the graph builder
therefore takes the distance function as a parameter `dist`.  No theorem
below depends on its values.

**The `DisjointSet` in `mst` is broken at construction**: line 219 of the
source reads `forest: any = DisjointSet()` — without `new`.  The source
file is an ES module, so its compiled form is strict-mode code, where a
bare constructor call binds `this` to `undefined` and the first statement
`this.index_ = {}` throws a `TypeError`.  (`makeSet` has the same defect:
`const created = Node(id);` without `new`, so even a constructed set could
never register a vertex.)  Consequently `mst` throws for every graph. -/

/-- A 2-D point `[x, y]`. -/
abbrev JsPt : Type := JsNum × JsNum

/-- `equalPoints(id1, id2)`. -/
def equalPoints (a b : JsPt) : Bool := a.1.Eqv b.1 ∧ a.2.Eqv b.2

/-- A link `{source, target, weight}` as produced by `makeLink`. -/
structure JsLink : Type where
  source : JsPt
  target : JsPt
  weight : JsNum

/-- `equalLinks(l1, l2)`: links are undirected. -/
def equalLinks (l1 l2 : JsLink) : Bool :=
  (equalPoints l1.source l2.source && equalPoints l1.target l2.target) ||
    (equalPoints l1.source l2.target && equalPoints l1.target l2.source)

/-- A graph `{nodes, links}`; a node `{id}` is represented by its id. -/
structure JsGraph : Type where
  nodes : List JsPt
  links : List JsLink

/-- `idExists(nodes, id)`. -/
def idExists (nodes : List JsPt) (id : JsPt) : Bool :=
  nodes.any (fun n => equalPoints n id)

/-- `linkExists(links, link)`. -/
def linkExists (links : List JsLink) (link : JsLink) : Bool :=
  links.any (fun l => equalLinks link l)

/-- `createGraph(triangles)` (lines 129-172): for every coordinate triangle
push its three vertices (deduplicated by `idExists`) and its three edges
`(t[i], t[(i+1)%3])` (deduplicated by `linkExists`), with weight
`dist t[i] t[(i+1)%3]`. -/
def createGraph (dist : JsPt → JsPt → JsNum)
    (triangles : List (JsPt × JsPt × JsPt)) : JsGraph :=
  let nodes := triangles.foldl
    (fun ns t => [t.1, t.2.1, t.2.2].foldl
      (fun ns id => if idExists ns id then ns else ns ++ [id]) ns) []
  let links := triangles.foldl
    (fun ls t =>
      ([(t.1, t.2.1), (t.2.1, t.2.2), (t.2.2, t.1)] : List (JsPt × JsPt)).foldl
        (fun ls e =>
          let link : JsLink := ⟨e.1, e.2, dist e.1 e.2⟩
          if linkExists ls link then ls else ls ++ [link]) ls) []
  ⟨nodes, links⟩

/-- The state of a `DisjointSet` object: `index_` maps point ids to node
objects.  Nothing is ever stored in it (see `nodeCreate`). -/
structure DSState : Type where
  index : List (JsPt × Unit)

/-- `DisjointSet()` invoked without `new` (line 219): in strict mode
`this` is `undefined`, so `this.index_ = {}` throws a `TypeError`. -/
def disjointSetCreate : Except JsErr DSState := .error .typeError

/-- `Node(id)` invoked without `new` inside `makeSet` (line 21):
`this.id_ = id` throws a `TypeError` before anything is returned. -/
def nodeCreate (_id : JsPt) : Except JsErr Unit :=
  .error .typeError

/-- `makeSet(id)` (lines 19-24): if the id is not yet present, construct a
`Node` (which throws, see `nodeCreate`) and store it. -/
def dsMakeSet (d : DSState) (id : JsPt) : Except JsErr DSState :=
  if d.index.any (fun kv => equalPoints kv.1 id) then .ok d
  else do
    let created ← nodeCreate id
    .ok ⟨d.index ++ [(id, created)]⟩

/-- `mst(graph)` (lines 213-240).  `DisjointSet()` throws before the
vertex loop; even granting a forest, the first `makeSet` throws inside
`Node(id)`.  The final branch is reachable only for a graph with no nodes,
where `forest.size() > 1` is false, the Kruskal `while` loop is skipped,
and no edges are selected — the edge sort and the pop/find/union loop of
the source are dead code for every input. -/
def mstRun (graph : JsGraph) : Except JsErr JsGraph :=
  match disjointSetCreate with
  | .error e => .error e
  | .ok forest =>
    match graph.nodes.foldlM dsMakeSet forest with
    | .error e => .error e
    | .ok _ => .ok { nodes := graph.nodes, links := [] }

/-- **C1.**  On the connected triangle graph built by `createGraph` from
one coordinate triangle `(0,0), (3,0), (0,4)` — three nodes, three links —
`mst` does not return a spanning tree (two links of minimal weight): it
throws a `TypeError`, because `DisjointSet()` and `Node(id)` are invoked
without `new` in a strict-mode ES module.  The result holds for every
distance function. -/
theorem mst_throws_C1 (dist : JsPt → JsPt → JsNum) :
    (createGraph dist [((0, 0), (3, 0), (0, 4))]).nodes.length = 3 ∧
      (createGraph dist [((0, 0), (3, 0), (0, 4))]).links.length = 3 ∧
      mstRun (createGraph dist [((0, 0), (3, 0), (0, 4))]) =
        .error .typeError :=
  ⟨rfl, rfl, rfl⟩

/-! ## `scagScorer` : entry, normalization, adaptive binning (C2, C3)

Translation of the entry section of `scagScorer` (the orchestrating file):
option unpacking, normalization, the binning block with its `do … while`
loop, and the `outputValue` calls that store partial results on the host
object.  `scagScorer` performs **no input-size validation**: there is no
`InsufficientPoints` (or any other failure object) anywhere in the source,
so the output type below has no failure constructor.

The `Binner` and the `Normalizer` live in `findScag/constructor.ts`, which
is not under `src/`:
* the hexagon binner (including `binRadius = (1/binSize)/√2`, a double
  square root) is taken as a parameter `binnerModel : binSize ↦
  (binRadius, bins)`; no theorem depends on its values, because the only
  branch that invokes it is guarded by `binType === 'hexagon'`;
* the normalizer is modelled from the spec (`normalizerModel`). -/

/-- The `binType` option: `'hexagon'` or any other (unknown/missing)
value, which no branch of the source handles. -/
inductive BinType : Type
  | hexagon
  | other
deriving DecidableEq, Repr

/-- The options record of `scagScorer` (absent fields are `none`). -/
structure ScagOptions : Type where
  binType : BinType
  startBinGridSize : Option JsNum
  isNormalized : Bool
  isBinned : Bool
  minBins : Option ℕ
  maxBins : Option ℕ

/-- `if (minBins) minNumOfBins = minBins;` — a missing *or zero* (falsy)
option keeps the default. -/
def optNum (o : Option ℕ) (dflt : ℕ) : ℕ :=
  match o with
  | none => dflt
  | some v => if v = 0 then dflt else v

/-- Modelled from the spec: `Normalizer` (`findScag/constructor.ts`) is
not under `src/`.  §4.1: compute per-axis min and range, map each point to
`((x−minₓ)/rangeₓ, (y−min_y)/range_y)`, and output `0.5` for a coordinate
whose range is zero. -/
def normalizerModel (pts : List JsPt) : List JsPt :=
  match pts with
  | [] => []
  | p0 :: _ =>
    let minx := pts.foldl (fun m p => if p.1.Lt m then p.1 else m) p0.1
    let maxx := pts.foldl (fun m p => if m.Lt p.1 then p.1 else m) p0.1
    let miny := pts.foldl (fun m p => if p.2.Lt m then p.2 else m) p0.2
    let maxy := pts.foldl (fun m p => if m.Lt p.2 then p.2 else m) p0.2
    let rx := maxx - minx
    let ry := maxy - miny
    pts.map (fun p =>
      (if rx.Eqv 0 then mkJs 1 2 else (p.1 - minx) / rx,
       if ry.Eqv 0 then mkJs 1 2 else (p.2 - miny) / ry))

/-- `uniq(normalizedPoints.map(p => p.join(',')))` keyed by the printed
coordinates: two finite doubles print equally iff they are equal, so the
distinct keys are the value-distinct points, in first-occurrence order. -/
def jsUniq (pts : List JsPt) : List JsPt :=
  pts.foldl (fun acc p => if acc.any (fun q => equalPoints q p) then acc else acc ++ [p]) []

/-- One pass of the `do` body: adjust `binSize` (`null` → start; too many
bins → halve; too few → `+ 5`), then re-bin — but only when
`binType === 'hexagon'`; for any other `binType` the body leaves `bins`
untouched. -/
def binStep (binType : BinType) (binnerModel : JsNum → JsNum × List JsPt)
    (start : JsNum) (minN maxN : ℕ) (s : Option JsNum × List JsPt) :
    Option JsNum × List JsPt :=
  let binSize : JsNum :=
    match s.1 with
    | none => start
    | some sz =>
      if maxN < s.2.length then sz / 2
      else if s.2.length < minN then sz + 5
      else sz
  let bins := if binType = BinType.hexagon then (binnerModel binSize).2 else s.2
  (some binSize, bins)

/-- The `do { … } while (bins.length > maxNumOfBins || bins.length <
minNumOfBins)` loop, fuelled.  The source has **no iteration cap**. -/
def binLoop (binType : BinType) (binnerModel : JsNum → JsNum × List JsPt)
    (start : JsNum) (minN maxN : ℕ) :
    ℕ → Option JsNum × List JsPt → Option (Option JsNum × List JsPt)
  | 0, _ => none
  | fuel + 1, s =>
    let s1 := binStep binType binnerModel start minN maxN s
    if maxN < s1.2.length ∨ s1.2.length < minN then
      binLoop binType binnerModel start minN maxN fuel s1
    else
      some s1

/-- The values `outputValue(name, value)` stores on the host object, in
order, over the entry section of `scagScorer` (`bins` are represented by
their centers, which is all the later pipeline reads via `sites`). -/
inductive ScagOut : Type
  | normalizedPoints (pts : List JsPt)
  | binner (present : Bool)
  | bins (centers : List JsPt)
  | binSize (s : Option JsNum)
  | binRadius (r : Option JsNum)
  | binnedSites (sites : List JsPt)
deriving DecidableEq

/-- The entry section of `scagScorer`, through `outputValue('binnedSites',
sites)`: copy the input, normalize unless `isNormalized`, record
`normalizedPoints`, bin unless `isBinned` (fewer distinct points than
`minNumOfBins` → one zero-radius bin per distinct point; otherwise the
adaptive loop), record the binning outputs and `binnedSites`.  `none`
means the binning loop never exited.  (The computation continues into the
Delaunay stage afterwards; nothing before this point checks the input
size or constructs any failure.) -/
def scagScorerPrefix (binnerModel : JsNum → JsNum × List JsPt) (fuel : ℕ)
    (inputPoints : List JsPt) (o : ScagOptions) : Option (List ScagOut) :=
  let points := inputPoints
  let normalizedPoints := if o.isNormalized then points else normalizerModel points
  let out := [ScagOut.normalizedPoints normalizedPoints]
  if o.isBinned then
    some (out ++ [ScagOut.binnedSites normalizedPoints])
  else
    let start : JsNum := o.startBinGridSize.getD 40
    let minN := optNum o.minBins 50
    let maxN := optNum o.maxBins 500
    let uniquePts := jsUniq normalizedPoints
    if uniquePts.length < minN then
      some (out ++ [ScagOut.binner false, ScagOut.bins uniquePts,
        ScagOut.binSize none, ScagOut.binRadius (some 0),
        ScagOut.binnedSites uniquePts])
    else
      match binLoop o.binType binnerModel start minN maxN fuel (none, []) with
      | none => none
      | some s1 =>
        some (out ++ [ScagOut.binner (o.binType = BinType.hexagon),
          ScagOut.bins s1.2, ScagOut.binSize s1.1,
          ScagOut.binRadius ((s1.1).map (fun sz => (binnerModel sz).1)),
          ScagOut.binnedSites s1.2])

/-- With a non-hexagon `binType` the loop body never reassigns `bins`, so
an empty `bins` stays empty, the exit condition `bins.length <
minNumOfBins` stays true (the falsy-option default makes `minNumOfBins ≥
1`), and the loop never exits — whatever the fuel. -/
theorem binLoop_diverges (binnerModel : JsNum → JsNum × List JsPt)
    (start : JsNum) (minN maxN : ℕ) (hmin : 0 < minN) :
    ∀ (fuel : ℕ) (s : Option JsNum × List JsPt), s.2 = [] →
      binLoop BinType.other binnerModel start minN maxN fuel s = none := by
  intro fuel
  induction fuel with
  | zero => intro s _; rfl
  | succ n ih =>
    intro s hs
    have hstep : (binStep BinType.other binnerModel start minN maxN s).2 = [] := by
      unfold binStep
      simpa using hs
    unfold binLoop
    rw [if_pos (Or.inr (by rw [hstep]; simpa using hmin))]
    exact ih _ hstep

/-- The options of the C2 failing input: an unknown (non-hexagon)
`binType`, pre-normalized, not pre-binned, `minBins = 1 ≤ 2 = maxBins`. -/
def optsC2 : ScagOptions :=
  { binType := BinType.other, startBinGridSize := none, isNormalized := true,
    isBinned := false, minBins := some 1, maxBins := some 2 }

/-- **C2.**  On three distinct (pre-normalized) points with options
`{binType: <unknown>, minBins: 1, maxBins: 2}` — positive `minBins ≤
`maxBins` — the adaptive binning loop of `scagScorer` does **not**
terminate: the three distinct points are not fewer than `minBins`, so the
`do…while` loop runs, and with an unknown `binType` its body never
assigns `bins`, so the exit test `bins.length < minNumOfBins` never turns
false.  There is no iteration cap: for every fuel (and every hexagon
binner, which is never consulted) the entry section fails to produce
bins, rather than returning the current bins. -/
theorem scag_binning_diverges_C2 (binnerModel : JsNum → JsNum × List JsPt)
    (fuel : ℕ) :
    scagScorerPrefix binnerModel fuel
      [((0 : JsNum), (0 : JsNum)), (1, 1), (mkJs 1 2, mkJs 1 2)] optsC2 = none := by
  unfold scagScorerPrefix
  rw [show optsC2.isBinned = false from rfl]
  simp only [Bool.false_eq_true, if_false]
  rw [show jsUniq (if optsC2.isNormalized then
      [((0 : JsNum), (0 : JsNum)), (1, 1), (mkJs 1 2, mkJs 1 2)]
    else normalizerModel [((0 : JsNum), (0 : JsNum)), (1, 1), (mkJs 1 2, mkJs 1 2)]) =
      [((0 : JsNum), (0 : JsNum)), (1, 1), (mkJs 1 2, mkJs 1 2)] from rfl]
  rw [show optNum optsC2.minBins 50 = 1 from rfl, show optNum optsC2.maxBins 500 = 2 from rfl]
  rw [if_neg (by decide)]
  rw [show optsC2.binType = BinType.other from rfl,
    binLoop_diverges binnerModel _ 1 2 one_pos fuel (none, []) rfl]

/-- The options of the C3 input: already normalized and already binned. -/
def optsNB : ScagOptions :=
  { binType := BinType.other, startBinGridSize := none, isNormalized := true,
    isBinned := true, minBins := none, maxBins := none }

/-- **C3, counterexample.**  On the two-point input `[(0,0), (1,1)]`
(fewer than 3 points) `scagScorer` does not fail fast: no
`InsufficientPoints` failure exists anywhere in the source, and the entry
section records partial results (`normalizedPoints`, `binnedSites`) on
the host object before the pipeline continues. -/
theorem scag_no_insufficientPoints_C3_counterexample :
    ([((0 : JsNum), (0 : JsNum)), (1, 1)] : List JsPt).length < 3 ∧
      scagScorerPrefix (fun _ => (0, [])) 5 [((0 : JsNum), (0 : JsNum)), (1, 1)] optsNB =
        some [ScagOut.normalizedPoints [((0 : JsNum), (0 : JsNum)), (1, 1)],
          ScagOut.binnedSites [((0 : JsNum), (0 : JsNum)), (1, 1)]] ∧
      (some [ScagOut.normalizedPoints [((0 : JsNum), (0 : JsNum)), (1, 1)],
          ScagOut.binnedSites [((0 : JsNum), (0 : JsNum)), (1, 1)]] : Option (List ScagOut))
        ≠ some [] := by
  exact ⟨by decide, by rfl, by decide⟩

/-- **C3, amended.**  `scagScorer` performs no minimum-size validation:
for every input with fewer than 3 points (here pre-normalized and
pre-binned), and in fact for every input, the entry section proceeds,
records the partial artifacts `normalizedPoints` and `binnedSites` on the
host object, and raises no failure — the output type of the embedding has
no failure constructor because the source constructs none. -/
theorem scag_records_partials_C3 (binnerModel : JsNum → JsNum × List JsPt)
    (fuel : ℕ) (pts : List JsPt) (_h : pts.length < 3) :
    scagScorerPrefix binnerModel fuel pts optsNB =
      some [ScagOut.normalizedPoints pts, ScagOut.binnedSites pts] := rfl

/-- **C3, witness** for the amended theorem at the two-point input. -/
theorem scag_records_partials_C3_witness :
    ([((0 : JsNum), (0 : JsNum)), (1, 1)] : List JsPt).length < 3 ∧
      scagScorerPrefix (fun _ => (0, [])) 7 [((0 : JsNum), (0 : JsNum)), (1, 1)] optsNB =
        some [ScagOut.normalizedPoints [((0 : JsNum), (0 : JsNum)), (1, 1)],
          ScagOut.binnedSites [((0 : JsNum), (0 : JsNum)), (1, 1)]] :=
  ⟨by decide, scag_records_partials_C3 (fun _ => (0, [])) 7
    [((0 : JsNum), (0 : JsNum)), (1, 1)] (by decide)⟩

/-! ## `grapher.ts` : `concaveHull1` (C5)

Translation of `concaveHull1(sites, longEdge)` (lines 423-460).  The
Delaunay triangulation comes from the external `d3-delaunay` package, so
the flat triangle-index array is a parameter, as is the distance function
(`distance` uses a double `Math.sqrt`; the concrete instantiation below
is exact).  `10e-3` in the source is `0.01`. -/

/-- The inner `for` pass: for every triangle `(t[i], t[i+1], t[i+2])`
(`i` stepping by 3, here structurally in chunks of three — the
triangulation's flat array always has length a multiple of 3) and each of
its three directed edges, keep the edge when its length is below the
threshold. -/
def chCollect (dist : JsPt → JsPt → JsNum) (points : List JsPt)
    (longEdge : JsNum) : List ℕ → List (ℕ × ℕ)
  | a :: b :: c :: rest =>
    let p := fun n => points.getD n (0, 0)
    (if (dist (p a) (p b)).Lt longEdge then [(a, b)] else []) ++
      (if (dist (p b) (p c)).Lt longEdge then [(b, c)] else []) ++
        (if (dist (p c) (p a)).Lt longEdge then [(c, a)] else []) ++
          chCollect dist points longEdge rest
  | _ => []

/-- The `while (cells.length <= 0)` relaxation loop: raise the threshold
by `0.01` and re-collect until at least one edge passes. -/
def chLoop (dist : JsPt → JsPt → JsNum) (triangles : List ℕ)
    (points : List JsPt) : ℕ → JsNum → Option (List (ℕ × ℕ))
  | 0, _ => none
  | fuel + 1, longEdge =>
    let le1 := longEdge + mkJs 1 100
    let cells := chCollect dist points le1 triangles
    if cells.length ≤ 0 then chLoop dist triangles points fuel le1
    else some cells

/-- `edge.sort()` on a two-element index array (in place).  JavaScript's
default sort compares decimal strings; on the single-digit indices of
every run below this coincides with numeric order. -/
def sortPair (e : ℕ × ℕ) : ℕ × ℕ := if e.2 < e.1 then (e.2, e.1) else (e.1, e.2)

/-- The counting and filtering passes (lines 446-458).  The counting
statement `edgeCount[theKey] = edgeCount[theKey] ? edgeCount[theKey] : 0 + 1`
parses as `edgeCount[theKey] || (0 + 1)` — `0 + 1` binds tighter than the
conditional — so every key that occurs at all is mapped to `1`, and the
filter `edgeCount[theKey] === 1` keeps every edge (the `sort()` calls have
mutated the pairs in place). -/
def chCountFilter (cells : List (ℕ × ℕ)) : List (ℕ × ℕ) :=
  let sorted := cells.map sortPair
  let edgeCount : ℕ × ℕ → ℕ := fun k => if sorted.any (fun e => e = k) then 1 else 0
  sorted.filter (fun e => edgeCount e = 1)

/-- `concaveHull1(sites, longEdge)`, with the external triangulation and
the distance function as parameters. -/
def concaveHull1Run (dist : JsPt → JsPt → JsNum) (triangles : List ℕ)
    (sites : List JsPt) (longEdge : JsNum) (fuel : ℕ) : Option (List (ℕ × ℕ)) :=
  (chLoop dist triangles sites fuel (longEdge - mkJs 1 100)).map chCountFilter

/-- The broken occurrence count makes the final filter the identity: every
key that occurs is counted `1`, so `concaveHull1` returns *all* edges that
passed the length threshold (each sorted in place), never removing the
edges that occur more than once. -/
theorem chCountFilter_keeps_everything (cells : List (ℕ × ℕ)) :
    chCountFilter cells = cells.map sortPair := by
  unfold chCountFilter
  apply List.filter_eq_self.mpr
  intro a ha
  simp only [decide_eq_true_eq]
  rw [if_pos]
  exact List.any_eq_true.mpr ⟨a, ha, by simp⟩

/-- The four sites of the C5 run: a 3×4 rectangle, all relevant distances
integral (3, 4 and the diagonal 5), so the source's
`Math.round(Math.sqrt(…)·1e10)/1e10` is exact. -/
def rectSites : List JsPt := [(0, 0), (3, 0), (0, 4), (3, 4)]

/-- The exact distances between the rectangle's sites. -/
def rectDist (a b : JsPt) : JsNum :=
  if equalPoints a b then 0
  else if (equalPoints a (0, 0) && equalPoints b (3, 0)) ||
      (equalPoints a (3, 0) && equalPoints b (0, 0)) then 3
  else if (equalPoints a (0, 4) && equalPoints b (3, 4)) ||
      (equalPoints a (3, 4) && equalPoints b (0, 4)) then 3
  else if (equalPoints a (0, 0) && equalPoints b (0, 4)) ||
      (equalPoints a (0, 4) && equalPoints b (0, 0)) then 4
  else if (equalPoints a (3, 0) && equalPoints b (3, 4)) ||
      (equalPoints a (3, 4) && equalPoints b (3, 0)) then 4
  else 5

/-- **C5.**  On the rectangle sites with the two Delaunay triangles
`(0, 1, 3)` and `(0, 3, 2)` — sharing the diagonal edge `{0, 3}` — and a
threshold passing every edge (`longEdge = 6`), `concaveHull1` returns all
six collected edges: the shared (interior) diagonal `{0, 3}` appears
**twice** in the result instead of being excluded as an edge that does
not occur exactly once; only the four boundary edges `{0,1}, {1,3}, {2,3},
{0,2}` occur exactly once. -/
theorem concaveHull1_keeps_shared_edge_C5 :
    concaveHull1Run rectDist [0, 1, 3, 0, 3, 2] rectSites 6 3 =
      some [(0, 1), (1, 3), (0, 3), (0, 3), (2, 3), (0, 2)] ∧
      List.count (0, 3) [(0, 1), (1, 3), (0, 3), (0, 3), (2, 3), (0, 2)] = 2 := by
  exact ⟨by rfl, by decide⟩

/-! ## `grapher.ts` : `delaunayFromPoints`, collinear fan (C7)

Translation of the collinear branch of `delaunayFromPoints`
(lines 242-276).  The non-collinear branch delegates to the external
`d3-delaunay` package and is not part of any claim handled here. -/

/-- The spec-side triple stream for a collinear fan: the claim's
"triangles `(i, i+1, i+2)` stepping by 2" (all of whose indices fit). -/
def fanTriple (m : ℕ) : List ℤ :=
  [((2 * m : ℕ) : ℤ), ((2 * m : ℕ) : ℤ) + 1, ((2 * m : ℕ) : ℤ) + 2]

/-- The loop body of the fan construction, one iteration per `steps`
(`i = i + 2` stepping): `if (i+1 < n) push(i, i+1); if (i+2 < n) push(i+2)
else if (n % 2 == 0) push(i - 1);`. -/
def fanGo (n : ℕ) : ℕ → ℕ → List ℤ
  | 0, _ => []
  | steps + 1, i =>
    if i < n then
      (if i + 1 < n then [(i : ℤ), (i : ℤ) + 1] else []) ++
        ((if i + 2 < n then [(i : ℤ) + 2]
          else if n % 2 = 0 then [(i : ℤ) - 1] else []) ++
          fanGo n steps (i + 2))
    else []

/-- The `tgs` array for `siteLength = n`. -/
def fanTriangles (n : ℕ) : List ℤ := fanGo n (n + 1) 0

/-- The claim's triple stream (C7): `(i, i+1, i+2)` for every even `i`
with `i + 2 ≤ n - 1`. -/
def fanClaimC7 (n : ℕ) : List ℤ := (List.range ((n - 1) / 2)).flatMap fanTriple

/-- The amended stream: the claim's triples, and — for an even site count —
one final triangle `(n-2, n-1, n-3)` that reuses index `n-3` instead of
the out-of-range `n`. -/
def fanAmendedC7 (n : ℕ) : List ℤ :=
  fanClaimC7 n ++
    (if n % 2 = 0 ∧ 2 ≤ n then [(n : ℤ) - 2, (n : ℤ) - 1, (n : ℤ) - 3] else [])

theorem fanGo_spec (steps : ℕ) : ∀ (n j : ℕ), n ≤ 2 * j + 2 * steps →
    fanGo n steps (2 * j) =
      (List.range' j ((n - 1) / 2 - j)).flatMap fanTriple ++
        (if n % 2 = 0 ∧ 2 * j + 2 ≤ n then
          [(n : ℤ) - 2, (n : ℤ) - 1, (n : ℤ) - 3] else []) := by
  induction steps with
  | zero =>
    intro n j h
    rw [show (n - 1) / 2 - j = 0 by omega, if_neg (by omega)]
    rfl
  | succ s ih =>
    intro n j h
    have ih1 := ih n (j + 1) (by omega)
    rw [show 2 * (j + 1) = 2 * j + 2 from by ring] at ih1
    by_cases hin : 2 * j < n
    · have hunfold : fanGo n (s + 1) (2 * j) =
          (if 2 * j + 1 < n then [((2 * j : ℕ) : ℤ), ((2 * j : ℕ) : ℤ) + 1] else []) ++
            ((if 2 * j + 2 < n then [((2 * j : ℕ) : ℤ) + 2]
              else if n % 2 = 0 then [((2 * j : ℕ) : ℤ) - 1] else []) ++
              fanGo n s (2 * j + 2)) := by
        rw [fanGo, if_pos hin]
      by_cases h2 : 2 * j + 2 < n
      · have h1 : 2 * j + 1 < n := by omega
        have hcount : (n - 1) / 2 - j = ((n - 1) / 2 - (j + 1)) + 1 := by omega
        rw [hunfold, if_pos h1, if_pos h2, ih1, hcount, List.range'_succ,
          List.flatMap_cons]
        have hiff : (n % 2 = 0 ∧ 2 * j + 2 + 2 ≤ n) ↔ (n % 2 = 0 ∧ 2 * j + 2 ≤ n) := by
          omega
        rw [if_congr hiff rfl rfl]
        simp only [fanTriple, List.append_assoc, List.cons_append, List.nil_append,
          List.singleton_append]
      · have hn : n = 2 * j + 1 ∨ n = 2 * j + 2 := by omega
        rcases hn with hn | hn
        · rw [hunfold, if_neg (by omega), if_neg (by omega), if_neg (by omega), ih1,
            show (n - 1) / 2 - (j + 1) = 0 by omega, show (n - 1) / 2 - j = 0 by omega,
            if_neg (by omega), if_neg (by omega)]
          rfl
        · rw [hunfold, if_pos (by omega), if_neg (by omega), if_pos (by omega), ih1,
            show (n - 1) / 2 - (j + 1) = 0 by omega, show (n - 1) / 2 - j = 0 by omega,
            if_neg (by omega), if_pos (by constructor <;> omega)]
          simp only [List.range'_zero, List.flatMap_nil, List.nil_append,
            List.append_nil, List.cons_append, List.singleton_append, List.nil_append]
          simp only [List.cons.injEq, and_true]
          refine ⟨by omega, by omega, by omega⟩
    · rw [show fanGo n (s + 1) (2 * j) = [] from by rw [fanGo, if_neg hin],
        show (n - 1) / 2 - j = 0 by omega, if_neg (by omega)]
      rfl

/-- Modelled from the spec: `isA2DLine` (`findScag/constructor.ts`) is not
under `src/`.  §4.3: sites are collinear when they "all share one x or lie
on a 2-D line" — i.e. every site lies on the line through the first site
and the first site distinct from it (cross products vanish). -/
def isA2DLine : List JsPt → Bool
  | [] => true
  | p :: rest =>
    match rest.find? (fun q => ! equalPoints q p) with
    | none => true
    | some q =>
      rest.all (fun r =>
        ((q.1 - p.1) * (r.2 - p.2) - (q.2 - p.2) * (r.1 - p.1)).Eqv 0)

/-- The sort comparator of the collinear branch,
`(a, b) => (a[0] > b[0] ? a[0] - b[0] : a[1] - b[1])`, as the relation
"the comparator is ≤ 0" (keep `a` before `b`).  It is *not* a lexicographic
comparator — for sites on a line of negative slope it is inconsistent and
JavaScript's sort order is implementation-defined — but on the concrete
(positive-slope) inputs below it is a consistent total preorder, where the
stable `List.insertionSort` agrees with JavaScript's stable sort. -/
def fanSortLe (a b : JsPt) : Prop :=
  ((if b.1.Lt a.1 then a.1 - b.1 else a.2 - b.2)).Le 0

instance : DecidableRel fanSortLe := fun _ _ => by
  unfold fanSortLe
  infer_instance

/-- The result object of the collinear branch of `delaunayFromPoints`:
`{triangles: tgs, points: copiedSites}`. -/
structure DelaunayRes : Type where
  triangles : List ℤ
  points : List JsPt

/-- The collinear branch of `delaunayFromPoints` (lines 245-271): copy and
sort the sites, then emit the fan `tgs`. -/
def delaunayCollinearRun (sites : List JsPt) : DelaunayRes :=
  let copiedSites := sites.insertionSort fanSortLe
  { triangles := fanTriangles copiedSites.length, points := copiedSites }

/-- **C7, counterexample.**  Four collinear sites `(0,0), (1,1), (2,2),
(3,3)` (where the comparator is consistent): the emitted triangle stream
is `[0,1,2, 2,3,1]` — the final triangle reuses index `1` — and not the
claim's "`(i, i+1, i+2)` stepping by 2", which gives `[0,1,2]` (stopping
while indices fit) or `[0,1,2, 2,3,4]` (with the out-of-range index `4`). -/
theorem delaunay_fan_claimC7_counterexample :
    isA2DLine [((0 : JsNum), (0 : JsNum)), (1, 1), (2, 2), (3, 3)] = true ∧
      (delaunayCollinearRun [((0 : JsNum), (0 : JsNum)), (1, 1), (2, 2), (3, 3)]).triangles =
        [0, 1, 2, 2, 3, 1] ∧
      fanClaimC7 4 = [0, 1, 2] ∧
      ([0, 1, 2, 2, 3, 1] : List ℤ) ≠ [0, 1, 2] ∧
      ([0, 1, 2, 2, 3, 1] : List ℤ) ≠ [0, 1, 2, 2, 3, 4] := by
  refine ⟨by decide, by rfl, by rfl, by decide, by decide⟩

/-- **C7, amended.**  For every collinear input of `3` or more sites,
`delaunayFromPoints` sorts the sites with its comparator and emits the
fan `(i, i+1, i+2)` for every even `i` with `i+2 < n`, plus — when the
site count `n` is even — a final triangle `(n-2, n-1, n-3)`; and every
index in the resulting triangles array is an integer in `[0, n-1]`, a
valid index into the sites list. -/
theorem delaunay_fan_amendedC7 (sites : List JsPt) (h3 : 3 ≤ sites.length)
    (_hline : isA2DLine sites = true) :
    (delaunayCollinearRun sites).triangles = fanAmendedC7 sites.length ∧
      ∀ t ∈ (delaunayCollinearRun sites).triangles,
        0 ≤ t ∧ t < (sites.length : ℤ) := by
  have hlen : (sites.insertionSort fanSortLe).length = sites.length :=
    List.length_insertionSort fanSortLe sites
  have htr : (delaunayCollinearRun sites).triangles = fanTriangles sites.length := by
    show fanTriangles (sites.insertionSort fanSortLe).length = fanTriangles sites.length
    rw [hlen]
  have hchar : fanTriangles sites.length = fanAmendedC7 sites.length := by
    unfold fanTriangles fanAmendedC7 fanClaimC7
    have h0 := fanGo_spec (sites.length + 1) sites.length 0 (by omega)
    simpa [List.range_eq_range'] using h0
  refine ⟨htr.trans hchar, ?_⟩
  rw [htr, hchar]
  intro t ht
  unfold fanAmendedC7 fanClaimC7 at ht
  rw [List.mem_append] at ht
  rcases ht with ht | ht
  · rw [List.mem_flatMap] at ht
    obtain ⟨m, hm, htm⟩ := ht
    rw [List.mem_range] at hm
    unfold fanTriple at htm
    simp only [List.mem_cons, List.not_mem_nil, or_false] at htm
    rcases htm with h | h | h <;> subst h <;> constructor <;>
      [skip; skip; skip; skip; skip; skip] <;> omega
  · by_cases hc : sites.length % 2 = 0 ∧ 2 ≤ sites.length
    · rw [if_pos hc] at ht
      simp only [List.mem_cons, List.not_mem_nil, or_false] at ht
      rcases ht with h | h | h <;> subst h <;> constructor <;> omega
    · rw [if_neg hc] at ht
      exact absurd ht (List.not_mem_nil t)

/-- **C7, witness** for the amended theorem, at five collinear sites. -/
theorem delaunay_fan_amendedC7_witness :
    3 ≤ ([((0 : JsNum), (0 : JsNum)), (1, 1), (2, 2), (3, 3), (4, 4)] : List JsPt).length ∧
      isA2DLine [((0 : JsNum), (0 : JsNum)), (1, 1), (2, 2), (3, 3), (4, 4)] = true ∧
      (delaunayCollinearRun
        [((0 : JsNum), (0 : JsNum)), (1, 1), (2, 2), (3, 3), (4, 4)]).triangles =
          fanAmendedC7 5 ∧
      ∀ t ∈ (delaunayCollinearRun
        [((0 : JsNum), (0 : JsNum)), (1, 1), (2, 2), (3, 3), (4, 4)]).triangles,
          0 ≤ t ∧ t < (5 : ℤ) := by
  have h := delaunay_fan_amendedC7
    [((0 : JsNum), (0 : JsNum)), (1, 1), (2, 2), (3, 3), (4, 4)] (by decide) (by decide)
  exact ⟨by decide, by decide, h.1, h.2⟩

/-! ## `grapher.ts` : `convexHull` and `sortVerticies` (C9)

`convexHull(sites)` (lines 325-340) returns collinear sites as-is;
otherwise it takes `cells = alphaShape(0, sites)` from the external
`alpha-shape` package (a parameter here), flattens the cell indices into
a `Set` (first-occurrence order), looks the vertices up in `sites`, and
sorts them with `sortVerticies` (lines 390-421).

`sortVerticies` sorts by the angle
`(toDegrees(Math.atan2(dx, dy)) + 360) % 360` around the centroid — the
angle measured from the **positive y-axis increasing clockwise** — using
the comparator `Math.round(a1 - a2)`.  The model compares these angles
exactly, through a monotone rational pseudo-angle `cwKey` of the
direction `(dx, dy)`: `1 - dy/(|dx|+|dy|)` on the closed right half-plane
(angles `[0°, 180°]`), `3 + dy/(|dx|+|dy|)` on the open left half-plane
(`(180°, 360°)`), and `0` for the zero vector (`Math.atan2(0,0) = 0`).
`cwKey` is strictly increasing in the clockwise-from-north angle.  The
source's rounding of the degree difference can merge two vertices whose
angles differ by less than half a degree; every concrete input below has
pairwise angle gaps of at least 45°, where the two orders coincide. -/

/-- Clockwise-from-north pseudo-angle of `p` around `c`. -/
def cwKey (c p : JsPt) : JsNum :=
  let dx := p.1 - c.1
  let dy := p.2 - c.2
  if dx.Eqv 0 ∧ dy.Eqv 0 then 0
  else if JsNum.Le 0 dx then (1 : JsNum) - dy / (dx.abs + dy.abs)
  else (3 : JsNum) + dy / (dx.abs + dy.abs)

/-- The order `sortVerticies` sorts in: ascending clockwise angle. -/
def cwLe (c : JsPt) (a b : JsPt) : Prop := (cwKey c a).Le (cwKey c b)

instance (c : JsPt) : DecidableRel (cwLe c) := fun _ _ => by
  unfold cwLe
  infer_instance

instance (c : JsPt) : IsTotal JsPt (cwLe c) :=
  ⟨fun a b => by
    unfold cwLe
    rw [JsNum.le_iff_toRat, JsNum.le_iff_toRat]
    exact le_total _ _⟩

instance (c : JsPt) : IsTrans JsPt (cwLe c) :=
  ⟨fun a b d hab hbd => by
    unfold cwLe at hab hbd ⊢
    rw [JsNum.le_iff_toRat] at hab hbd ⊢
    exact le_trans hab hbd⟩

/-- `findCentroid(points)`: the coordinate average. -/
def findCentroid (points : List JsPt) : JsPt :=
  (points.foldl (fun s p => s + p.1) 0 / (points.length : JsNum),
   points.foldl (fun s p => s + p.2) 0 / (points.length : JsNum))

/-- `sortVerticies(points)`: sort by clockwise angle around the centroid
(stable, like JavaScript's sort). -/
def sortVerticies (points : List JsPt) : List JsPt :=
  points.insertionSort (cwLe (findCentroid points))

/-- `Array.from(new Set(cells.flat()))`: flatten, deduplicate keeping
first occurrences. -/
def jsSetFlatten (cells : List (List ℕ)) : List ℕ :=
  cells.flatten.foldl (fun acc i => if acc.contains i then acc else acc ++ [i]) []

/-- `convexHull(sites)`, with the external alpha-shape cells as a
parameter. -/
def convexHullRun (sites : List JsPt) (cells : List (List ℕ)) : List JsPt :=
  if isA2DLine sites then sites
  else sortVerticies ((jsSetFlatten cells).map (fun i => sites.getD i (0, 0)))

/-- Counter-clockwise pseudo-angle from the positive x-axis — the
ordering the claim asserts: strictly increasing in the standard
mathematical angle `atan2(dy, dx)` normalised to `[0°, 360°)`. -/
def ccwKey (c p : JsPt) : JsNum :=
  let dx := p.1 - c.1
  let dy := p.2 - c.2
  if dx.Eqv 0 ∧ dy.Eqv 0 then 0
  else if JsNum.Le 0 dy then (1 : JsNum) - dx / (dx.abs + dy.abs)
  else (3 : JsNum) + dx / (dx.abs + dy.abs)

/-- The claim's order: ascending counter-clockwise angle. -/
def ccwLe (c : JsPt) (a b : JsPt) : Prop := (ccwKey c a).Le (ccwKey c b)

instance (c : JsPt) : DecidableRel (ccwLe c) := fun _ _ => by
  unfold ccwLe
  infer_instance

/-- The unit square's corners and its four hull edges (what
`alphaShape(0, ·)` produces for them, up to orientation and order —
the result below is the same for any cell list flattening to these four
indices). -/
def squareSites : List JsPt := [(0, 0), (1, 0), (1, 1), (0, 1)]

def squareCells : List (List ℕ) := [[0, 1], [1, 2], [2, 3], [3, 0]]

/-- **C9, counterexample.**  On the unit square (not collinear),
`convexHull` returns `[(1,1), (1,0), (0,0), (0,1)]` — the vertices in
**clockwise** order (north-east first, then south-east, south-west,
north-west).  No rotation of this list is sorted counter-clockwise by
angle around the centroid `(1/2, 1/2)`: the claim's counter-clockwise
ordering fails at every starting vertex. -/
theorem convexHull_not_ccw_C9_counterexample :
    isA2DLine squareSites = false ∧
      convexHullRun squareSites squareCells = [(1, 1), (1, 0), (0, 0), (0, 1)] ∧
      ¬ List.Sorted (ccwLe (findCentroid [((1 : JsNum), (1 : JsNum)), (1, 0), (0, 0), (0, 1)]))
          [((1 : JsNum), (1 : JsNum)), (1, 0), (0, 0), (0, 1)] ∧
      ¬ List.Sorted (ccwLe (findCentroid [((1 : JsNum), (1 : JsNum)), (1, 0), (0, 0), (0, 1)]))
          [((1 : JsNum), (0 : JsNum)), (0, 0), (0, 1), (1, 1)] ∧
      ¬ List.Sorted (ccwLe (findCentroid [((1 : JsNum), (1 : JsNum)), (1, 0), (0, 0), (0, 1)]))
          [((0 : JsNum), (0 : JsNum)), (0, 1), (1, 1), (1, 0)] ∧
      ¬ List.Sorted (ccwLe (findCentroid [((1 : JsNum), (1 : JsNum)), (1, 0), (0, 0), (0, 1)]))
          [((0 : JsNum), (1 : JsNum)), (1, 1), (1, 0), (0, 0)] := by
  refine ⟨by decide, by rfl, by decide, by decide, by decide, by decide⟩

/-- **C9, amended.**  `convexHull` returns collinear sites unchanged; for
non-collinear sites it returns the unique hull vertices (a permutation of
the flattened cell lookups) sorted by **clockwise** angle around their
centroid — i.e. ascending `atan2(dx, dy)`-from-north order, which is
counter-clockwise only under a y-down screen convention, not the
mathematical counter-clockwise order the claim states. -/
theorem convexHull_amendedC9 (sites : List JsPt) (cells : List (List ℕ)) :
    (isA2DLine sites = true → convexHullRun sites cells = sites) ∧
      (isA2DLine sites = false →
        (convexHullRun sites cells).Perm
            ((jsSetFlatten cells).map (fun i => sites.getD i (0, 0))) ∧
          List.Sorted
            (cwLe (findCentroid ((jsSetFlatten cells).map (fun i => sites.getD i (0, 0)))))
            (convexHullRun sites cells)) := by
  constructor
  · intro h
    unfold convexHullRun
    rw [h]
    rfl
  · intro h
    unfold convexHullRun
    rw [h]
    simp only [Bool.false_eq_true, if_false]
    unfold sortVerticies
    exact ⟨List.perm_insertionSort _ _, List.sorted_insertionSort _ _⟩

/-- **C9, witness** for the amended theorem, at the unit square. -/
theorem convexHull_amendedC9_witness :
    isA2DLine squareSites = false ∧
      (convexHullRun squareSites squareCells).Perm
          ((jsSetFlatten squareCells).map (fun i => squareSites.getD i (0, 0))) ∧
        List.Sorted
          (cwLe (findCentroid ((jsSetFlatten squareCells).map
            (fun i => squareSites.getD i (0, 0)))))
          (convexHullRun squareSites squareCells) :=
  ⟨by decide, (convexHull_amendedC9 squareSites squareCells).2 (by decide)⟩
